import Mathlib

/-!
Verification of the `lyst` checklist application's storage layer (`DB` in
`src/main.py`) against its natural-language specification.

The SQLite-backed storage is shallowly embedded: each table is a list of
records, each `DB` method a pure function on a `DBState`.  Timestamps
(ISO strings produced by `_now()` in the source) are modelled as an
abstract clock value of type `Nat` passed to each mutating operation as
`now`; every `updated_at = _now()` assignment in the source becomes
`updated_at := now`.  SQLite's auto-assigned `INTEGER PRIMARY KEY` rowids
are modelled as `max existing id + 1`.  A SQL `UPDATE ... WHERE` is a
`List.map` guarded by the `WHERE` condition, a `DELETE ... WHERE` a
`List.filter`, and `SELECT ... ORDER BY sort_order ASC, id ASC` a sort by
the lexicographic key `(sort_order, id)`.  Each `conn.commit()` in the
source marks a durable state; operations that commit more than once are
additionally described by the list of their committed states.
-/

/-- Row of the `lists` table (`CREATE TABLE lists` in `_init_schema`). -/
structure ListRow where
  id : Nat
  title : String
  created_at : Nat
  updated_at : Nat
deriving DecidableEq, Repr

/-- Row of the `items` table (`CREATE TABLE items` in `_init_schema`). -/
structure ItemRow where
  id : Nat
  list_id : Nat
  text : String
  checked : Nat
  sort_order : Nat
deriving DecidableEq, Repr

/-- The durable database state: the two tables. -/
structure DBState where
  lists : List ListRow
  items : List ItemRow
deriving DecidableEq, Repr

/-- The ordering used by `SELECT ... ORDER BY sort_order ASC, id ASC`:
lexicographic on `(sort_order, id)`. -/
def itemLE (a b : ItemRow) : Prop :=
  a.sort_order < b.sort_order ∨ (a.sort_order = b.sort_order ∧ a.id ≤ b.id)

instance : DecidableRel itemLE := fun a b => by
  unfold itemLE; infer_instance

instance : IsTotal ItemRow itemLE where
  total a b := by
    unfold itemLE
    rcases Nat.lt_trichotomy a.sort_order b.sort_order with h | h | h
    · exact Or.inl (Or.inl h)
    · rcases Nat.le_total a.id b.id with h2 | h2
      · exact Or.inl (Or.inr ⟨h, h2⟩)
      · exact Or.inr (Or.inr ⟨h.symm, h2⟩)
    · exact Or.inr (Or.inl h)

instance : IsTrans ItemRow itemLE where
  trans a b c hab hbc := by
    unfold itemLE at *
    rcases hab with h1 | ⟨e1, i1⟩
    · rcases hbc with h2 | ⟨e2, _⟩
      · exact Or.inl (h1.trans h2)
      · exact Or.inl (e2 ▸ h1)
    · rcases hbc with h2 | ⟨e2, i2⟩
      · exact Or.inl (e1 ▸ h2)
      · exact Or.inr ⟨e1.trans e2, i1.trans i2⟩

/-- Strict version of `itemLE`; antisymmetric because it is asymmetric. -/
def itemLT (a b : ItemRow) : Prop :=
  a.sort_order < b.sort_order ∨ (a.sort_order = b.sort_order ∧ a.id < b.id)

instance : IsAntisymm ItemRow itemLT where
  antisymm a b hab hba := by
    unfold itemLT at *
    rcases hab with h1 | ⟨e1, i1⟩ <;> rcases hba with h2 | ⟨e2, i2⟩
    · exact absurd (h1.trans h2) (lt_irrefl _)
    · exact absurd h1 (e2 ▸ lt_irrefl _)
    · exact absurd h2 (e1 ▸ lt_irrefl _)
    · exact absurd (i1.trans i2) (lt_irrefl _)

/-- SQLite assigns a fresh `INTEGER PRIMARY KEY` as one more than the
largest existing rowid. -/
def freshId (ids : List Nat) : Nat :=
  ids.foldr max 0 + 1

namespace DB

/-- `DB.items`: `SELECT id, text, checked, sort_order FROM items WHERE
list_id = ? ORDER BY sort_order ASC, id ASC`. -/
def items (s : DBState) (list_id : Nat) : List ItemRow :=
  List.insertionSort itemLE (s.items.filter (fun r => r.list_id == list_id))

/-- `DB.lists` is not needed by the claims; `get_list` resolves a lists
row by id (`WHERE id = ?`). -/
def get_list (s : DBState) (list_id : Nat) : Option ListRow :=
  s.lists.find? (fun l => l.id == list_id)

/-- `DB.create_list`: `INSERT INTO lists (title, created_at, updated_at)
VALUES (?, ?, ?)` with `created_at = updated_at = now`; returns
`cur.lastrowid`.  No validation of `title` is performed. -/
def create_list (s : DBState) (title : String) (now : Nat) : DBState × Nat :=
  let new_id := freshId (s.lists.map (·.id))
  ({ s with lists := s.lists ++ [⟨new_id, title, now, now⟩] }, new_id)

/-- `DB.rename_list`: `UPDATE lists SET title = ?, updated_at = ? WHERE
id = ?`.  An `UPDATE` matching zero rows succeeds and changes nothing;
the Python method returns `None` and raises nothing. -/
def rename_list (s : DBState) (list_id : Nat) (title : String) (now : Nat) :
    DBState :=
  { s with
    lists := s.lists.map (fun l =>
      if l.id = list_id then { l with title := title, updated_at := now }
      else l) }

/-- `DB.delete_list`: `DELETE FROM items WHERE list_id = ?` then
`DELETE FROM lists WHERE id = ?`, followed by a single `commit()`. -/
def delete_list (s : DBState) (list_id : Nat) : DBState :=
  { s with
    items := s.items.filter (fun r => !(r.list_id == list_id)),
    lists := s.lists.filter (fun l => !(l.id == list_id)) }

/-- The durable states of `DB.delete_list`: the initial state and the
state after its single `commit()`; both deletes are one transaction. -/
def delete_list_commits (s : DBState) (list_id : Nat) : List DBState :=
  [s, delete_list s list_id]

/-- `DB.add_item`: reads `COALESCE(MAX(sort_order), 0) + 1` over the
list's items, inserts `(list_id, text, 0, next_order)`, bumps the owning
list's `updated_at`, commits once; returns `cur.lastrowid`. -/
def add_item (s : DBState) (list_id : Nat) (text : String) (now : Nat) :
    DBState × Nat :=
  let next_order :=
    (s.items.filter (fun r => r.list_id == list_id)).foldr
      (fun r m => max r.sort_order m) 0 + 1
  let new_id := freshId (s.items.map (·.id))
  ({ s with
      items := s.items ++ [⟨new_id, list_id, text, 0, next_order⟩],
      lists := s.lists.map (fun l =>
        if l.id = list_id then { l with updated_at := now } else l) },
   new_id)

/-- `DB.update_item_text`: `UPDATE items SET text = ? WHERE id = ?`.
Note: it does not touch the `lists` table. -/
def update_item_text (s : DBState) (item_id : Nat) (text : String) : DBState :=
  { s with
    items := s.items.map (fun r =>
      if r.id = item_id then { r with text := text } else r) }

/-- `DB.toggle_item`: `UPDATE items SET checked = CASE checked WHEN 0
THEN 1 ELSE 0 END WHERE id = ?`.  Note: it does not touch `lists`. -/
def toggle_item (s : DBState) (item_id : Nat) : DBState :=
  { s with
    items := s.items.map (fun r =>
      if r.id = item_id then
        { r with checked := if r.checked = 0 then 1 else 0 }
      else r) }

/-- `DB._rewrite_order`: `for idx, item in enumerate(items, start=1)`,
`UPDATE items SET sort_order = idx WHERE id = item.id`, then bump the
list's `updated_at`, then one `commit()`. -/
def _rewrite_order (s : DBState) (list_id : Nat) (its : List ItemRow)
    (now : Nat) : DBState :=
  { s with
    items := its.enum.foldl
      (fun tbl p => tbl.map (fun r =>
        if r.id = p.2.id then { r with sort_order := p.1 + 1 } else r))
      s.items,
    lists := s.lists.map (fun l =>
      if l.id = list_id then { l with updated_at := now } else l) }

/-- `DB._normalize_order`: rewrite the order of `items(list_id)`. -/
def _normalize_order (s : DBState) (list_id : Nat) (now : Nat) : DBState :=
  _rewrite_order s list_id (items s list_id) now

/-- The state after the first `commit()` inside `DB.delete_item`
(line 163 of the source): the row is deleted, nothing renumbered yet. -/
def delete_item_commit1 (s : DBState) (item_id : Nat) : DBState :=
  { s with items := s.items.filter (fun r => !(r.id == item_id)) }

/-- `DB.delete_item`: `DELETE FROM items WHERE id = ?` (note: no
`list_id` check), `commit()`, then `_normalize_order(list_id)` which
commits separately. -/
def delete_item (s : DBState) (list_id item_id : Nat) (now : Nat) : DBState :=
  _normalize_order (delete_item_commit1 s item_id) list_id now

/-- The durable states of `DB.delete_item`: initial, after the delete's
own `commit()`, and after `_rewrite_order`'s `commit()`. -/
def delete_item_commits (s : DBState) (list_id item_id : Nat) (now : Nat) :
    List DBState :=
  [s, delete_item_commit1 s item_id, delete_item s list_id item_id now]

/-- The Python tuple swap `items[index], items[target] = items[target],
items[index]` on the fetched list. -/
def swapList (l : List ItemRow) (i j : Nat) : List ItemRow :=
  match l.get? i, l.get? j with
  | some a, some b => (l.set i b).set j a
  | _, _ => l

/-- `DB.move_item`: fetch `items(list_id)`, locate `item_id`'s index
(first match, `None` if absent), return unchanged if absent or if
`index + direction` is out of bounds, else swap and `_rewrite_order`. -/
def move_item (s : DBState) (list_id item_id : Nat) (direction : Int)
    (now : Nat) : DBState :=
  let its := items s list_id
  match its.findIdx? (fun r => r.id == item_id) with
  | none => s
  | some index =>
      let target : Int := (index : Int) + direction
      if target < 0 ∨ (its.length : Int) ≤ target then s
      else _rewrite_order s list_id (swapList its index target.toNat) now

end DB

/-- Python's `str.strip()`: drop leading and trailing whitespace. -/
def stripChars (l : List Char) : List Char :=
  ((l.dropWhile Char.isWhitespace).reverse.dropWhile Char.isWhitespace).reverse

/-- `InputScreen.on_input_submitted`: strips the submitted value and
dismisses `None` (cancel) when it is blank, else the stripped text. -/
def input_submitted (value : String) : Option String :=
  let v := String.mk (stripChars value.data)
  if v = "" then none else some v

/-- Renumbering a fetched sequence to the dense run 1..N, keeping every
other field: the effect `_rewrite_order` has on the rows it is given. -/
def reindex (l : List ItemRow) : List ItemRow :=
  l.enum.map (fun p => { p.2 with sort_order := p.1 + 1 })

/-- The sort positions of `l` form the dense run `1..N` in order. -/
def denseOrder (l : List ItemRow) : Prop :=
  l.map (·.sort_order) = List.range' 1 l.length

/-- Well-formedness of the `items` table: rowids are unique (the
`INTEGER PRIMARY KEY` constraint). -/
def WFitems (s : DBState) : Prop :=
  (s.items.map (·.id)).Nodup

/-- Uniqueness of `lists` rowids (the `INTEGER PRIMARY KEY` constraint). -/
def WFlists (s : DBState) : Prop :=
  (s.lists.map (·.id)).Nodup

instance (l : List ItemRow) : Decidable (denseOrder l) := by
  unfold denseOrder; infer_instance

instance (s : DBState) : Decidable (WFitems s) := by
  unfold WFitems; infer_instance

instance (s : DBState) : Decidable (WFlists s) := by
  unfold WFlists; infer_instance

/-- One user operation on a fixed list, for the C1 invariant: the three
order-touching mutations `add_item`, `delete_item`, `move_item`. -/
inductive Op where
  | add : String → Op
  | del : Nat → Op
  | move : Nat → Int → Op

/-- Apply one operation to the database, targeting list `lid`. -/
def applyOp (lid : Nat) (s : DBState) (op : Op) (now : Nat) : DBState :=
  match op with
  | .add t => (DB.add_item s lid t now).1
  | .del iid => DB.delete_item s lid iid now
  | .move iid d => DB.move_item s lid iid d now

/-- Apply a finite sequence of operations, all targeting list `lid`. -/
def applyOps (lid : Nat) (s : DBState) (ops : List Op) (now : Nat) : DBState :=
  ops.foldl (fun t op => applyOp lid t op now) s

/-! ### Order lemmas: the `(sort_order, id)` key determines the fetched order -/

theorem itemLT_of_itemLE_of_ne {a b : ItemRow} (hle : itemLE a b)
    (hne : a.id ≠ b.id) : itemLT a b := by
  rcases hle with h | ⟨e, i⟩
  · exact Or.inl h
  · exact Or.inr ⟨e, lt_of_le_of_ne i hne⟩

theorem itemLE_of_itemLT {a b : ItemRow} (h : itemLT a b) : itemLE a b := by
  rcases h with h | ⟨e, i⟩
  · exact Or.inl h
  · exact Or.inr ⟨e, le_of_lt i⟩

theorem sorted_strict_of_sorted {l : List ItemRow}
    (hs : List.Sorted itemLE l) (hnd : (l.map (·.id)).Nodup) :
    List.Sorted itemLT l := by
  have hne : List.Pairwise (fun a b : ItemRow => a.id ≠ b.id) l :=
    List.pairwise_map.mp hnd
  exact (hs.and hne).imp (fun h => itemLT_of_itemLE_of_ne h.1 h.2)

theorem sorted_of_sorted_strict {l : List ItemRow}
    (hs : List.Sorted itemLT l) : List.Sorted itemLE l :=
  hs.imp (fun h => itemLE_of_itemLT h)

/-- The sorted fetch is determined: `insertionSort itemLE l` equals any
strictly sorted permutation of `l`, provided ids in `l` are unique. -/
theorem insertionSort_eq_of {l t : List ItemRow}
    (hnd : (l.map (·.id)).Nodup) (hp : t.Perm l)
    (hs : List.Sorted itemLT t) :
    List.insertionSort itemLE l = t := by
  have hperm : (List.insertionSort itemLE l).Perm l :=
    List.perm_insertionSort itemLE l
  have hnd2 : ((List.insertionSort itemLE l).map (·.id)).Nodup :=
    ((hperm.map (·.id)).nodup_iff).mpr hnd
  have hsorted : List.Sorted itemLT (List.insertionSort itemLE l) :=
    sorted_strict_of_sorted (List.sorted_insertionSort itemLE l) hnd2
  exact List.eq_of_perm_of_sorted (hperm.trans hp.symm) hsorted hs

/-! ### `enum`/`reindex` lemmas -/

theorem length_reindex (l : List ItemRow) : (reindex l).length = l.length := by
  simp [reindex, List.enum_length]

theorem getElem_reindex (l : List ItemRow) (k : Nat)
    (hk : k < (reindex l).length) (hk2 : k < l.length) :
    (reindex l)[k] = { l[k] with sort_order := k + 1 } := by
  simp [reindex, List.getElem_map, List.getElem_enum]

theorem sorted_strict_reindex (l : List ItemRow) :
    List.Sorted itemLT (reindex l) := by
  rw [List.Sorted, List.pairwise_iff_getElem]
  intro i j hi hj hij
  rw [getElem_reindex l i hi (by simpa [length_reindex] using hi),
    getElem_reindex l j hj (by simpa [length_reindex] using hj)]
  exact Or.inl (by simpa using Nat.succ_lt_succ hij)

theorem map_sort_order_reindex (l : List ItemRow) :
    (reindex l).map (·.sort_order) = List.range' 1 l.length := by
  have h1 : (reindex l).map (·.sort_order)
      = l.enum.map (fun p => p.1 + 1) := by
    simp only [reindex, List.map_map]
    rfl
  have h2 : l.enum.map (fun p : Nat × ItemRow => p.1 + 1)
      = (l.enum.map Prod.fst).map (fun n => n + 1) := by
    simp only [List.map_map]
    rfl
  rw [h1, h2, List.enum_map_fst, List.range'_eq_map_range]
  exact List.map_congr_left (fun a _ => Nat.add_comm a 1)

theorem denseOrder_reindex (l : List ItemRow) : denseOrder (reindex l) := by
  unfold denseOrder
  rw [map_sort_order_reindex, length_reindex]

theorem map_id_reindex (l : List ItemRow) :
    (reindex l).map (·.id) = l.map (·.id) := by
  apply List.ext_getElem
  · simp [length_reindex]
  · intro k h1 h2
    have hk : k < l.length := by simpa using h2
    simp only [List.getElem_map]
    rw [getElem_reindex l k (by simpa [length_reindex] using hk) hk]

/-! ### The effect of `_rewrite_order`'s sequence of `UPDATE` statements -/

/-- The row that the loop of `UPDATE items SET sort_order = idx WHERE
id = item.id` statements leaves behind for `r`: look `r.id` up among the
enumerated pairs and set its sort position accordingly. -/
def lookupUpdate (us : List (Nat × ItemRow)) (r : ItemRow) : ItemRow :=
  match us.find? (fun p => p.2.id == r.id) with
  | some p => { r with sort_order := p.1 + 1 }
  | none => r

theorem lookupUpdate_id (us : List (Nat × ItemRow)) (r : ItemRow) :
    (lookupUpdate us r).id = r.id := by
  unfold lookupUpdate
  cases us.find? (fun p => p.2.id == r.id) <;> rfl

theorem lookupUpdate_list_id (us : List (Nat × ItemRow)) (r : ItemRow) :
    (lookupUpdate us r).list_id = r.list_id := by
  unfold lookupUpdate
  cases us.find? (fun p => p.2.id == r.id) <;> rfl

theorem lookupUpdate_of_none {us : List (Nat × ItemRow)} {r : ItemRow}
    (h : us.find? (fun p => p.2.id == r.id) = none) :
    lookupUpdate us r = r := by
  unfold lookupUpdate
  rw [h]

/-- Folding the per-row `UPDATE` statements over the table equals a single
pass looking each row up among the updates, as long as the updated ids are
pairwise distinct. -/
theorem foldl_update_eq (us : List (Nat × ItemRow)) (tbl : List ItemRow)
    (h : (us.map (fun p => p.2.id)).Nodup) :
    us.foldl
      (fun t p => t.map (fun r =>
        if r.id = p.2.id then { r with sort_order := p.1 + 1 } else r))
      tbl
    = tbl.map (lookupUpdate us) := by
  induction us generalizing tbl with
  | nil =>
    simp only [List.foldl_nil]
    have : tbl.map (lookupUpdate []) = tbl.map id :=
      List.map_congr_left (fun r _ => by
        simp [lookupUpdate, List.find?_nil])
    rw [this, List.map_id]
  | cons u us ih =>
    have h1 : u.2.id ∉ us.map (fun p => p.2.id) :=
      (List.nodup_cons.mp h).1
    have h2 : (us.map (fun p => p.2.id)).Nodup := (List.nodup_cons.mp h).2
    simp only [List.foldl_cons]
    rw [ih _ h2, List.map_map]
    apply List.map_congr_left
    intro r _
    simp only [Function.comp_apply]
    by_cases hid : r.id = u.2.id
    · have hnone :
          us.find? (fun p => p.2.id == r.id) = none := by
        apply List.find?_eq_none.mpr
        intro p hp
        simp only [beq_iff_eq]
        intro hc
        exact h1 (hid ▸ hc ▸ List.mem_map.mpr ⟨p, hp, rfl⟩)
      rw [if_pos hid]
      have hl : lookupUpdate us { r with sort_order := u.1 + 1 }
          = { r with sort_order := u.1 + 1 } :=
        lookupUpdate_of_none (by simpa using hnone)
      rw [hl]
      unfold lookupUpdate
      rw [List.find?_cons]
      have : (u.2.id == r.id) = true := by simp [hid]
      simp only [this]
    · rw [if_neg hid]
      unfold lookupUpdate
      rw [List.find?_cons]
      have : (u.2.id == r.id) = false := by
        simp only [beq_eq_false_iff_ne]
        exact fun hc => hid hc.symm
      simp only [this]

/-- With pairwise-distinct ids, the enumerated lookup finds each row of
`its` at exactly its own position. -/
theorem find?_enumFrom_nodup (its : List ItemRow)
    (hnd : (its.map (·.id)).Nodup) :
    ∀ (k n : Nat) (hk : k < its.length),
      (List.enumFrom n its).find? (fun p => p.2.id == its[k].id)
        = some (n + k, its[k]) := by
  induction its with
  | nil => intro k n hk; exact absurd hk (Nat.not_lt_zero k)
  | cons a t ih =>
    intro k n hk
    cases k with
    | zero =>
      rw [List.enumFrom_cons, List.find?_cons]
      simp
    | succ k =>
      have ha : a.id ∉ t.map (·.id) := (List.nodup_cons.mp hnd).1
      have ht : (t.map (·.id)).Nodup := (List.nodup_cons.mp hnd).2
      have hk' : k < t.length := Nat.lt_of_succ_lt_succ hk
      have hget : (a :: t)[k + 1] = t[k] := rfl
      have hne : (a.id == (a :: t)[k + 1].id) = false := by
        rw [hget]
        simp only [beq_eq_false_iff_ne]
        intro hc
        exact ha (hc ▸ List.mem_map.mpr ⟨t[k], List.getElem_mem hk', rfl⟩)
      rw [List.enumFrom_cons, List.find?_cons]
      simp only [hne]
      rw [hget, ih ht k (n + 1) hk']
      congr 1
      rw [Prod.mk.injEq]
      exact ⟨by omega, rfl⟩

/-- Applying the enumerated lookup to `its` itself renumbers it 1..N. -/
theorem map_lookupUpdate_enum (its : List ItemRow)
    (hnd : (its.map (·.id)).Nodup) :
    its.map (lookupUpdate its.enum) = reindex its := by
  apply List.ext_getElem
  · rw [List.length_map, length_reindex]
  · intro k h1 h2
    have hk : k < its.length := by simpa using h1
    have hfind : its.enum.find? (fun p => p.2.id == its[k].id)
        = some (k, its[k]) := by
      rw [List.enum_eq_enumFrom]
      simpa using find?_enumFrom_nodup its hnd k 0 hk
    rw [List.getElem_map,
      getElem_reindex its k (by simpa [length_reindex] using hk) hk]
    unfold lookupUpdate
    rw [hfind]

/-! ### `_rewrite_order` characterized -/

theorem nodup_filter_ids {s : DBState} (hWF : WFitems s)
    (p : ItemRow → Bool) :
    ((s.items.filter p).map (·.id)).Nodup := by
  unfold WFitems at hWF
  exact ((List.filter_sublist s.items).map (fun r : ItemRow => r.id)).nodup hWF

theorem enum_map_snd_id (its : List ItemRow) :
    its.enum.map (fun p => p.2.id) = its.map (·.id) := by
  have : (fun p : Nat × ItemRow => p.2.id)
      = (fun r : ItemRow => r.id) ∘ Prod.snd := rfl
  rw [this, ← List.map_map, List.enum_map_snd]

theorem rewrite_order_items_eq (s : DBState) (lid : Nat)
    (its : List ItemRow) (now : Nat)
    (hnd : (its.map (·.id)).Nodup) :
    (DB._rewrite_order s lid its now).items
      = s.items.map (lookupUpdate its.enum) := by
  apply foldl_update_eq
  rw [enum_map_snd_id]
  exact hnd

theorem foldl_update_map_id (us : List (Nat × ItemRow)) (tbl : List ItemRow) :
    (us.foldl
      (fun t p => t.map (fun r =>
        if r.id = p.2.id then { r with sort_order := p.1 + 1 } else r))
      tbl).map (·.id) = tbl.map (·.id) := by
  induction us generalizing tbl with
  | nil => rfl
  | cons u us ih =>
    rw [List.foldl_cons, ih, List.map_map]
    apply List.map_congr_left
    intro r _
    simp only [Function.comp_apply]
    by_cases h : r.id = u.2.id <;> simp [h]

theorem rewrite_order_map_id (s : DBState) (lid : Nat)
    (its : List ItemRow) (now : Nat) :
    (DB._rewrite_order s lid its now).items.map (·.id)
      = s.items.map (·.id) :=
  foldl_update_map_id its.enum s.items

theorem WFitems_rewrite_order (s : DBState) (lid : Nat)
    (its : List ItemRow) (now : Nat) (hWF : WFitems s) :
    WFitems (DB._rewrite_order s lid its now) := by
  unfold WFitems
  rw [rewrite_order_map_id]
  exact hWF

/-- After `_rewrite_order s lid its` with `its` a permutation of the
list's stored rows, fetching the list returns exactly `its` renumbered
densely 1..N. -/
theorem items_rewrite_order (s : DBState) (lid : Nat) (its : List ItemRow)
    (now : Nat) (hWF : WFitems s)
    (hp : its.Perm (s.items.filter (fun r => r.list_id == lid))) :
    DB.items (DB._rewrite_order s lid its now) lid = reindex its := by
  have hnd : (its.map (·.id)).Nodup :=
    ((hp.map (·.id)).nodup_iff).mpr (nodup_filter_ids hWF _)
  unfold DB.items
  rw [rewrite_order_items_eq s lid its now hnd, List.filter_map]
  have hpg : ((fun r : ItemRow => r.list_id == lid) ∘ lookupUpdate its.enum)
      = (fun r : ItemRow => r.list_id == lid) := by
    funext r
    simp only [Function.comp_apply, lookupUpdate_list_id]
  rw [hpg]
  have hnd' : (((s.items.filter (fun r => r.list_id == lid)).map
      (lookupUpdate its.enum)).map (·.id)).Nodup := by
    rw [List.map_map]
    have : ((fun r : ItemRow => r.id) ∘ lookupUpdate its.enum)
        = (fun r : ItemRow => r.id) := by
      funext r
      simp only [Function.comp_apply, lookupUpdate_id]
    rw [this]
    exact nodup_filter_ids hWF _
  have hperm : (reindex its).Perm
      ((s.items.filter (fun r => r.list_id == lid)).map
        (lookupUpdate its.enum)) := by
    rw [(map_lookupUpdate_enum its hnd).symm]
    exact hp.map _
  exact insertionSort_eq_of hnd' hperm (sorted_strict_reindex its)

/-- `_rewrite_order` with the rows of list `lid` leaves every other
list's fetched sequence untouched. -/
theorem items_rewrite_order_other (s : DBState) (lid : Nat)
    (its : List ItemRow) (now : Nat) (hWF : WFitems s)
    (hp : its.Perm (s.items.filter (fun r => r.list_id == lid)))
    (lid' : Nat) (hne : lid' ≠ lid) :
    DB.items (DB._rewrite_order s lid its now) lid'
      = DB.items s lid' := by
  have hnd : (its.map (·.id)).Nodup :=
    ((hp.map (·.id)).nodup_iff).mpr (nodup_filter_ids hWF _)
  unfold DB.items
  rw [rewrite_order_items_eq s lid its now hnd, List.filter_map]
  have hpg : ((fun r : ItemRow => r.list_id == lid') ∘ lookupUpdate its.enum)
      = (fun r : ItemRow => r.list_id == lid') := by
    funext r
    simp only [Function.comp_apply, lookupUpdate_list_id]
  rw [hpg]
  congr 1
  have hfix : ∀ r ∈ s.items.filter (fun r => r.list_id == lid'),
      lookupUpdate its.enum r = r := by
    intro r hr
    rcases List.mem_filter.mp hr with ⟨hrs, hrl⟩
    apply lookupUpdate_of_none
    apply List.find?_eq_none.mpr
    intro p hpmem
    simp only [beq_iff_eq]
    intro hc
    have hsnd : p.2 ∈ its := by
      have : p.2 ∈ its.enum.map Prod.snd := List.mem_map.mpr ⟨p, hpmem, rfl⟩
      rwa [List.enum_map_snd] at this
    have hfil : p.2 ∈ s.items.filter (fun r => r.list_id == lid) :=
      hp.mem_iff.mp hsnd
    rcases List.mem_filter.mp hfil with ⟨hps, hpl⟩
    have : p.2 = r := List.inj_on_of_nodup_map hWF hps hrs hc
    rw [this] at hpl
    have h1 : r.list_id = lid := by simpa using hpl
    have h2 : r.list_id = lid' := by simpa using hrl
    exact hne (h2 ▸ h1)
  calc (s.items.filter (fun r => r.list_id == lid')).map
        (lookupUpdate its.enum)
      = (s.items.filter (fun r => r.list_id == lid')).map id :=
        List.map_congr_left (fun r hr => hfix r hr)
    _ = _ := List.map_id _

/-- `_rewrite_order` bumps `updated_at` of the targeted list (and of no
other): looking the list row up afterwards yields the old row with
`updated_at = now`. -/
theorem find?_map_idpres (ls : List ListRow) (lid : Nat)
    (f : ListRow → ListRow) (hf : ∀ l, (f l).id = l.id) :
    (ls.map f).find? (fun l => l.id == lid)
      = (ls.find? (fun l => l.id == lid)).map f := by
  rw [List.find?_map]
  have : ((fun l : ListRow => l.id == lid) ∘ f)
      = (fun l : ListRow => l.id == lid) := by
    funext l
    simp only [Function.comp_apply, hf]
  rw [this]

/-! ### `MAX(sort_order)` and fresh ids -/

theorem le_foldr_max {a : Nat} {l : List Nat} (h : a ∈ l) :
    a ≤ l.foldr max 0 := by
  induction l with
  | nil => cases h
  | cons b t ih =>
    rcases List.mem_cons.mp h with rfl | h2
    · exact Nat.le_max_left _ _
    · exact (ih h2).trans (Nat.le_max_right _ _)

theorem freshId_not_mem (ids : List Nat) : freshId ids ∉ ids := by
  intro h
  have := le_foldr_max h
  unfold freshId at this
  omega

theorem foldr_max_init (l : List Nat) (a : Nat) :
    l.foldr max a = max a (l.foldr max 0) := by
  induction l with
  | nil => simp
  | cons b t ih =>
    simp only [List.foldr_cons, ih]
    omega

theorem foldr_max_perm {l₁ l₂ : List Nat} (h : l₁.Perm l₂) :
    l₁.foldr max 0 = l₂.foldr max 0 := by
  induction h with
  | nil => rfl
  | cons x _ ih => simp only [List.foldr_cons, ih]
  | swap x y l =>
    simp only [List.foldr_cons]
    omega
  | trans _ _ ih1 ih2 => exact ih1.trans ih2

theorem foldr_max_range' (n : Nat) :
    (List.range' 1 n).foldr max 0 = n := by
  induction n with
  | zero => rfl
  | succ n ih =>
    rw [List.range'_1_concat, List.foldr_append, foldr_max_init]
    simp only [List.foldr_cons, List.foldr_nil] at *
    omega

/-- The `MAX(sort_order)` fold of `add_item` over the stored rows, as a
fold of `max` over the sort positions. -/
theorem foldr_max_sort_eq (l : List ItemRow) :
    l.foldr (fun r m => max r.sort_order m) 0
      = (l.map (·.sort_order)).foldr max 0 := by
  rw [List.foldr_map]

/-! ### `add_item` characterized -/

theorem WFitems_add_item (s : DBState) (lid : Nat) (text : String)
    (now : Nat) (hWF : WFitems s) :
    WFitems (DB.add_item s lid text now).1 := by
  unfold WFitems DB.add_item
  simp only [List.map_append, List.map_cons, List.map_nil]
  rw [List.nodup_append]
  refine ⟨hWF, List.nodup_singleton _, ?_⟩
  intro a ha hb
  rcases List.mem_singleton.mp hb with rfl
  exact freshId_not_mem _ ha

/-- `add_item` appends the new row — with sort position `MAX + 1` — at
the end of the fetched order, and leaves the previously fetched rows
unchanged. -/
theorem items_add_item (s : DBState) (lid : Nat) (text : String) (now : Nat)
    (hWF : WFitems s) :
    DB.items (DB.add_item s lid text now).1 lid
      = DB.items s lid
        ++ [⟨freshId (s.items.map (·.id)), lid, text, 0,
             (s.items.filter (fun r => r.list_id == lid)).foldr
               (fun r m => max r.sort_order m) 0 + 1⟩] := by
  set M := (s.items.filter (fun r => r.list_id == lid)).foldr
    (fun r m => max r.sort_order m) 0 with hM
  set new : ItemRow := ⟨freshId (s.items.map (·.id)), lid, text, 0, M + 1⟩
    with hnew
  show List.insertionSort itemLE
      ((s.items ++ [new]).filter (fun r => r.list_id == lid)) = _
  rw [List.filter_append]
  have hfil : [new].filter (fun r => r.list_id == lid) = [new] := by
    simp [hnew]
  rw [hfil]
  have hndall : ((s.items ++ [new]).map (·.id)).Nodup := by
    rw [List.map_append]
    rw [List.nodup_append]
    refine ⟨hWF, List.nodup_singleton _, ?_⟩
    intro a ha hb
    rcases List.mem_singleton.mp hb with rfl
    exact freshId_not_mem _ ha
  have hnd : (((s.items.filter (fun r => r.list_id == lid)) ++ [new]).map
      (·.id)).Nodup := by
    have hsub : ((s.items.filter (fun r => r.list_id == lid)) ++ [new]).Sublist
        (s.items ++ [new]) :=
      (List.filter_sublist s.items).append (List.Sublist.refl [new])
    exact (hsub.map (fun r : ItemRow => r.id)).nodup hndall
  have hperm : (DB.items s lid ++ [new]).Perm
      ((s.items.filter (fun r => r.list_id == lid)) ++ [new]) :=
    (List.perm_insertionSort itemLE _).append (List.Perm.refl _)
  have hsorted : List.Sorted itemLT (DB.items s lid ++ [new]) := by
    rw [List.Sorted, List.pairwise_append]
    have hndold : ((DB.items s lid).map (·.id)).Nodup := by
      have := (List.perm_insertionSort itemLE
        (s.items.filter (fun r => r.list_id == lid))).map
          (fun r : ItemRow => r.id)
      exact this.nodup_iff.mpr (nodup_filter_ids hWF _)
    refine ⟨sorted_strict_of_sorted (List.sorted_insertionSort itemLE _)
      hndold, List.pairwise_singleton _ _, ?_⟩
    intro a ha b hb
    rcases List.mem_singleton.mp hb with rfl
    have hmem : a ∈ s.items.filter (fun r => r.list_id == lid) :=
      (List.perm_insertionSort itemLE _).mem_iff.mp ha
    have hle : a.sort_order ≤ M := by
      rw [hM, foldr_max_sort_eq]
      exact le_foldr_max (List.mem_map.mpr ⟨a, hmem, rfl⟩)
    exact Or.inl (by simp [hnew]; omega)
  exact insertionSort_eq_of hnd hperm hsorted

/-! ### The in-place tuple swap of `move_item` is a permutation -/

theorem get_cons_set_perm {α : Type} :
    ∀ (t : List α) (m : Nat) (hm : m < t.length) (a : α),
      (t[m] :: t.set m a).Perm (a :: t) := by
  intro t
  induction t with
  | nil => intro m hm a; exact absurd hm (Nat.not_lt_zero m)
  | cons b t' ih =>
    intro m hm a
    cases m with
    | zero => exact List.Perm.swap a b t'
    | succ k =>
      have hk : k < t'.length := Nat.lt_of_succ_lt_succ hm
      have h1 : (b :: t')[k + 1] = t'[k] := List.getElem_cons_succ ..
      have h2 : (b :: t').set (k + 1) a = b :: t'.set k a := rfl
      rw [h1, h2]
      exact ((List.Perm.swap b t'[k] (t'.set k a)).trans
        ((ih k hk a).cons b)).trans (List.Perm.swap a b t')

theorem set_set_perm {α : Type} :
    ∀ (l : List α) (i j : Nat) (hi : i < l.length) (hj : j < l.length),
      ((l.set i l[j]).set j l[i]).Perm l := by
  intro l
  induction l with
  | nil => intro i j hi; exact absurd hi (Nat.not_lt_zero i)
  | cons a t ih =>
    intro i j hi hj
    cases i with
    | zero =>
      cases j with
      | zero => exact List.Perm.refl _
      | succ m =>
        have hm : m < t.length := Nat.lt_of_succ_lt_succ hj
        have h1 : (a :: t)[m + 1] = t[m] := List.getElem_cons_succ ..
        have h2 : (a :: t)[0] = a := rfl
        rw [h1, h2]
        show (t[m] :: t.set m a).Perm (a :: t)
        exact get_cons_set_perm t m hm a
    | succ k =>
      cases j with
      | zero =>
        have hk : k < t.length := Nat.lt_of_succ_lt_succ hi
        have h1 : (a :: t)[k + 1] = t[k] := List.getElem_cons_succ ..
        have h2 : (a :: t)[0] = a := rfl
        rw [h1, h2]
        show (t[k] :: t.set k a).Perm (a :: t)
        exact get_cons_set_perm t k hk a
      | succ m =>
        have hk : k < t.length := Nat.lt_of_succ_lt_succ hi
        have hm : m < t.length := Nat.lt_of_succ_lt_succ hj
        have h1 : (a :: t)[k + 1] = t[k] := List.getElem_cons_succ ..
        have h2 : (a :: t)[m + 1] = t[m] := List.getElem_cons_succ ..
        rw [h1, h2]
        show (a :: (t.set k t[m]).set m t[k]).Perm (a :: t)
        exact (ih k m hk hm).cons a

theorem swapList_perm (l : List ItemRow) (i j : Nat)
    (hi : i < l.length) (hj : j < l.length) :
    (DB.swapList l i j).Perm l := by
  unfold DB.swapList
  rw [List.get?_eq_getElem?, List.get?_eq_getElem?,
    List.getElem?_eq_getElem hi, List.getElem?_eq_getElem hj]
  exact set_set_perm l i j hi hj

/-! ### Density lemmas -/

theorem maxOrder_of_dense (s : DBState) (lid : Nat)
    (hd : denseOrder (DB.items s lid)) :
    (s.items.filter (fun r => r.list_id == lid)).foldr
      (fun r m => max r.sort_order m) 0 = (DB.items s lid).length := by
  rw [foldr_max_sort_eq]
  have hperm : ((s.items.filter (fun r => r.list_id == lid)).map
      (·.sort_order)).Perm ((DB.items s lid).map (·.sort_order)) :=
    ((List.perm_insertionSort itemLE _).map _).symm
  rw [foldr_max_perm hperm]
  unfold denseOrder at hd
  rw [hd, foldr_max_range']

theorem denseOrder_add_item (s : DBState) (lid : Nat) (text : String)
    (now : Nat) (hWF : WFitems s) (hd : denseOrder (DB.items s lid)) :
    denseOrder (DB.items (DB.add_item s lid text now).1 lid) := by
  rw [items_add_item s lid text now hWF]
  unfold denseOrder
  rw [List.map_append, List.length_append]
  have hd' := hd
  unfold denseOrder at hd'
  rw [hd', maxOrder_of_dense s lid hd]
  simp only [List.map_cons, List.map_nil, List.length_cons, List.length_nil]
  rw [List.range'_1_concat]
  congr 2
  omega

/-! ### Bound from a successful `findIdx?` -/

theorem findIdx?_lt_length {α : Type} {p : α → Bool} :
    ∀ {l : List α} {i n : Nat}, List.findIdx? p l n = some i → i < n + l.length := by
  intro l
  induction l with
  | nil => intro i n h; exact absurd h (by simp [List.findIdx?_nil])
  | cons a t ih =>
    intro i n h
    rw [List.findIdx?_cons] at h
    by_cases hp : p a = true
    · rw [if_pos hp] at h
      cases h
      simp only [List.length_cons]
      omega
    · rw [if_neg hp] at h
      have := ih h
      simp only [List.length_cons]
      omega

theorem findIdx?_lt_length0 {α : Type} {p : α → Bool} {l : List α} {i : Nat}
    (h : List.findIdx? p l = some i) : i < l.length := by
  have := findIdx?_lt_length (n := 0) h
  omega

/-! ### `move_item` characterized -/

theorem move_item_noop_absent (s : DBState) (lid iid : Nat) (d : Int)
    (now : Nat)
    (h : (DB.items s lid).findIdx? (fun r => r.id == iid) = none) :
    DB.move_item s lid iid d now = s := by
  unfold DB.move_item
  simp only [h]

theorem move_item_noop_oob (s : DBState) (lid iid : Nat) (d : Int)
    (now : Nat) (index : Nat)
    (h : (DB.items s lid).findIdx? (fun r => r.id == iid) = some index)
    (hoob : (index : Int) + d < 0 ∨
      ((DB.items s lid).length : Int) ≤ (index : Int) + d) :
    DB.move_item s lid iid d now = s := by
  unfold DB.move_item
  simp only [h]
  rw [if_pos hoob]

theorem move_item_swap_eq (s : DBState) (lid iid : Nat) (d : Int)
    (now : Nat) (index : Nat)
    (h : (DB.items s lid).findIdx? (fun r => r.id == iid) = some index)
    (hin : 0 ≤ (index : Int) + d)
    (hlt : (index : Int) + d < ((DB.items s lid).length : Int)) :
    DB.move_item s lid iid d now
      = DB._rewrite_order s lid
          (DB.swapList (DB.items s lid) index ((index : Int) + d).toNat)
          now := by
  unfold DB.move_item
  simp only [h]
  rw [if_neg (by omega)]

theorem items_move_item (s : DBState) (lid iid : Nat) (d : Int) (now : Nat)
    (index : Nat) (hWF : WFitems s)
    (h : (DB.items s lid).findIdx? (fun r => r.id == iid) = some index)
    (hin : 0 ≤ (index : Int) + d)
    (hlt : (index : Int) + d < ((DB.items s lid).length : Int)) :
    DB.items (DB.move_item s lid iid d now) lid
      = reindex (DB.swapList (DB.items s lid) index
          ((index : Int) + d).toNat) := by
  rw [move_item_swap_eq s lid iid d now index h hin hlt]
  have hi : index < (DB.items s lid).length := findIdx?_lt_length0 h
  have hj : ((index : Int) + d).toNat < (DB.items s lid).length := by omega
  apply items_rewrite_order s lid _ now hWF
  exact (swapList_perm _ _ _ hi hj).trans (List.perm_insertionSort itemLE _)

theorem WFitems_move_item (s : DBState) (lid iid : Nat) (d : Int)
    (now : Nat) (hWF : WFitems s) :
    WFitems (DB.move_item s lid iid d now) := by
  cases h : (DB.items s lid).findIdx? (fun r => r.id == iid) with
  | none =>
    rw [move_item_noop_absent s lid iid d now h]
    exact hWF
  | some index =>
    by_cases hoob : (index : Int) + d < 0 ∨
        ((DB.items s lid).length : Int) ≤ (index : Int) + d
    · rw [move_item_noop_oob s lid iid d now index h hoob]
      exact hWF
    · rw [move_item_swap_eq s lid iid d now index h (by omega) (by omega)]
      exact WFitems_rewrite_order _ _ _ _ hWF

/-! ### `delete_item` characterized -/

theorem WFitems_delete_item_commit1 (s : DBState) (iid : Nat)
    (hWF : WFitems s) : WFitems (DB.delete_item_commit1 s iid) :=
  nodup_filter_ids hWF _

theorem items_delete_item_commit1 (s : DBState) (lid iid : Nat)
    (hWF : WFitems s) :
    DB.items (DB.delete_item_commit1 s iid) lid
      = (DB.items s lid).filter (fun r => !(r.id == iid)) := by
  unfold DB.items DB.delete_item_commit1
  have hcomm :
      (s.items.filter (fun r => !(r.id == iid))).filter
        (fun r => r.list_id == lid)
      = (s.items.filter (fun r => r.list_id == lid)).filter
        (fun r => !(r.id == iid)) := by
    rw [List.filter_filter, List.filter_filter]
    apply List.filter_congr
    intro r _
    exact Bool.and_comm _ _
  rw [hcomm]
  have hnd : (((s.items.filter (fun r => r.list_id == lid)).filter
      (fun r => !(r.id == iid))).map (·.id)).Nodup := by
    have hsub : ((s.items.filter (fun r => r.list_id == lid)).filter
        (fun r => !(r.id == iid))).Sublist s.items :=
      (List.filter_sublist _).trans (List.filter_sublist _)
    exact (hsub.map (fun r : ItemRow => r.id)).nodup hWF
  have hperm : ((DB.items s lid).filter (fun r => !(r.id == iid))).Perm
      ((s.items.filter (fun r => r.list_id == lid)).filter
        (fun r => !(r.id == iid))) :=
    (List.perm_insertionSort itemLE _).filter _
  have hsorted :
      List.Sorted itemLT ((DB.items s lid).filter (fun r => !(r.id == iid))) := by
    have hndi : ((DB.items s lid).map (·.id)).Nodup :=
      ((List.perm_insertionSort itemLE _).map
        (fun r : ItemRow => r.id)).nodup_iff.mpr (nodup_filter_ids hWF _)
    exact List.Pairwise.sublist (List.filter_sublist _)
      (sorted_strict_of_sorted (List.sorted_insertionSort itemLE _) hndi)
  exact insertionSort_eq_of hnd hperm hsorted

theorem items_delete_item (s : DBState) (lid iid : Nat) (now : Nat)
    (hWF : WFitems s) :
    DB.items (DB.delete_item s lid iid now) lid
      = reindex ((DB.items s lid).filter (fun r => !(r.id == iid))) := by
  unfold DB.delete_item DB._normalize_order
  have hp : (DB.items (DB.delete_item_commit1 s iid) lid).Perm
      ((DB.delete_item_commit1 s iid).items.filter
        (fun r => r.list_id == lid)) :=
    List.perm_insertionSort itemLE _
  rw [items_rewrite_order (DB.delete_item_commit1 s iid) lid _ now
    (WFitems_delete_item_commit1 s iid hWF) hp]
  rw [items_delete_item_commit1 s lid iid hWF]

theorem WFitems_delete_item (s : DBState) (lid iid : Nat) (now : Nat)
    (hWF : WFitems s) : WFitems (DB.delete_item s lid iid now) :=
  WFitems_rewrite_order _ _ _ _ (WFitems_delete_item_commit1 s iid hWF)

/-! ### The density invariant is preserved by every operation -/

theorem invariant_applyOp (lid : Nat) (now : Nat) (s : DBState) (op : Op)
    (hWF : WFitems s) (hd : denseOrder (DB.items s lid)) :
    WFitems (applyOp lid s op now)
      ∧ denseOrder (DB.items (applyOp lid s op now) lid) := by
  cases op with
  | add t =>
    exact ⟨WFitems_add_item s lid t now hWF,
      denseOrder_add_item s lid t now hWF hd⟩
  | del iid =>
    refine ⟨WFitems_delete_item s lid iid now hWF, ?_⟩
    show denseOrder (DB.items (DB.delete_item s lid iid now) lid)
    rw [items_delete_item s lid iid now hWF]
    exact denseOrder_reindex _
  | move iid d =>
    show WFitems (DB.move_item s lid iid d now)
      ∧ denseOrder (DB.items (DB.move_item s lid iid d now) lid)
    cases h : (DB.items s lid).findIdx? (fun r => r.id == iid) with
    | none =>
      rw [move_item_noop_absent s lid iid d now h]
      exact ⟨hWF, hd⟩
    | some index =>
      by_cases hoob : (index : Int) + d < 0 ∨
          ((DB.items s lid).length : Int) ≤ (index : Int) + d
      · rw [move_item_noop_oob s lid iid d now index h hoob]
        exact ⟨hWF, hd⟩
      · refine ⟨WFitems_move_item s lid iid d now hWF, ?_⟩
        rw [items_move_item s lid iid d now index hWF h (by omega) (by omega)]
        exact denseOrder_reindex _

theorem invariant_applyOps (lid : Nat) (now : Nat) (ops : List Op) :
    ∀ (s : DBState), WFitems s → denseOrder (DB.items s lid) →
      WFitems (applyOps lid s ops now)
        ∧ denseOrder (DB.items (applyOps lid s ops now) lid) := by
  induction ops with
  | nil => intro s hWF hd; exact ⟨hWF, hd⟩
  | cons op ops ih =>
    intro s hWF hd
    have h1 := invariant_applyOp lid now s op hWF hd
    exact ih (applyOp lid s op now) h1.1 h1.2

/-! ### `updated_at` bumps -/

theorem get_list_rewrite_order (s : DBState) (lid : Nat)
    (its : List ItemRow) (now : Nat) :
    DB.get_list (DB._rewrite_order s lid its now) lid
      = (DB.get_list s lid).map (fun l => { l with updated_at := now }) := by
  show (s.lists.map _).find? _ = _
  rw [find?_map_idpres s.lists lid _ (fun l => by
    by_cases h : l.id = lid <;> simp [h])]
  unfold DB.get_list
  cases hf : s.lists.find? (fun l => l.id == lid) with
  | none => rfl
  | some l0 =>
    have : l0.id = lid := by simpa using List.find?_some hf
    simp [this]

theorem get_list_add_item (s : DBState) (lid : Nat) (text : String)
    (now : Nat) :
    DB.get_list (DB.add_item s lid text now).1 lid
      = (DB.get_list s lid).map (fun l => { l with updated_at := now }) := by
  show (s.lists.map _).find? _ = _
  rw [find?_map_idpres s.lists lid _ (fun l => by
    by_cases h : l.id = lid <;> simp [h])]
  unfold DB.get_list
  cases hf : s.lists.find? (fun l => l.id == lid) with
  | none => rfl
  | some l0 =>
    have : l0.id = lid := by simpa using List.find?_some hf
    simp [this]

theorem get_list_rename_list (s : DBState) (lid : Nat) (title : String)
    (now : Nat) :
    DB.get_list (DB.rename_list s lid title now) lid
      = (DB.get_list s lid).map
          (fun l => { l with title := title, updated_at := now }) := by
  show (s.lists.map _).find? _ = _
  rw [find?_map_idpres s.lists lid _ (fun l => by
    by_cases h : l.id = lid <;> simp [h])]
  unfold DB.get_list
  cases hf : s.lists.find? (fun l => l.id == lid) with
  | none => rfl
  | some l0 =>
    have : l0.id = lid := by simpa using List.find?_some hf
    simp [this]

theorem get_list_delete_item (s : DBState) (lid iid : Nat) (now : Nat) :
    DB.get_list (DB.delete_item s lid iid now) lid
      = (DB.get_list s lid).map (fun l => { l with updated_at := now }) := by
  unfold DB.delete_item DB._normalize_order
  rw [get_list_rewrite_order]
  rfl

/-- `rename_list` on an id that matches no row leaves the state
unchanged (the SQL `UPDATE` matches zero rows and succeeds). -/
theorem rename_list_absent (s : DBState) (lid : Nat) (title : String)
    (now : Nat) (h : DB.get_list s lid = none) :
    DB.rename_list s lid title now = s := by
  unfold DB.rename_list
  have hall : ∀ l ∈ s.lists, ¬(l.id == lid) = true :=
    List.find?_eq_none.mp h
  have : s.lists.map (fun l =>
      if l.id = lid then { l with title := title, updated_at := now }
      else l) = s.lists.map id := by
    apply List.map_congr_left
    intro l hl
    have : ¬l.id = lid := by simpa using hall l hl
    simp [this]
  rw [this, List.map_id]

/-! ## Claims -/

/-- A small populated database used by the concrete witnesses: one list
"Groceries" (id 1) with items Milk(1), Eggs(2), Bread(3) at dense
positions 1..3. -/
def sampleDB : DBState :=
  ⟨[⟨1, "Groceries", 1, 4⟩],
   [⟨1, 1, "Milk", 0, 1⟩, ⟨2, 1, "Eggs", 0, 2⟩, ⟨3, 1, "Bread", 0, 3⟩]⟩

/-- C1: for every list and every finite sequence of `add_item`,
`delete_item`, `move_item` operations on it, starting from a state with
unique item ids whose fetched order is dense, `items` returns sort
positions forming the dense run 1..N (strictly increasing from 1, no
gaps, no duplicates), N being the number of the list's items. -/
theorem C1_dense_invariant (s : DBState) (lid : Nat) (ops : List Op)
    (now : Nat) (hWF : WFitems s) (hd : denseOrder (DB.items s lid)) :
    denseOrder (DB.items (applyOps lid s ops now) lid) :=
  (invariant_applyOps lid now ops s hWF hd).2

/-- Witness for C1 at a concrete state and operation sequence
(add, add, add, move Bread up, delete Bread). -/
theorem C1_dense_invariant_witness :
    WFitems ⟨[⟨1, "L", 0, 0⟩], []⟩
      ∧ denseOrder (DB.items ⟨[⟨1, "L", 0, 0⟩], []⟩ 1)
      ∧ denseOrder (DB.items
          (applyOps 1 ⟨[⟨1, "L", 0, 0⟩], []⟩
            [Op.add "Milk", Op.add "Eggs", Op.add "Bread",
             Op.move 3 (-1), Op.del 3] 7) 1) :=
  ⟨by decide, by decide,
   C1_dense_invariant ⟨[⟨1, "L", 0, 0⟩], []⟩ 1
     [Op.add "Milk", Op.add "Eggs", Op.add "Bread",
      Op.move 3 (-1), Op.del 3] 7 (by decide) (by decide)⟩

/-- C2: `move_item` with the item present: if `index + direction` is out
of bounds the state is left unchanged (no error); otherwise the fetched
order is the prior order with the rows at `index` and `index + direction`
exchanged, renumbered densely 1..N. -/
theorem C2_move_item (s : DBState) (lid iid : Nat) (d : Int) (now : Nat)
    (index : Nat) (hWF : WFitems s) (hdir : d = -1 ∨ d = 1)
    (hfind : (DB.items s lid).findIdx? (fun r => r.id == iid) = some index) :
    (((index : Int) + d < 0 ∨
        ((DB.items s lid).length : Int) ≤ (index : Int) + d) →
      DB.move_item s lid iid d now = s)
    ∧ (0 ≤ (index : Int) + d →
        (index : Int) + d < ((DB.items s lid).length : Int) →
        DB.items (DB.move_item s lid iid d now) lid
          = reindex (DB.swapList (DB.items s lid) index
              ((index : Int) + d).toNat)) :=
  ⟨fun hoob => move_item_noop_oob s lid iid d now index hfind hoob,
   fun hin hlt => items_move_item s lid iid d now index hWF hfind hin hlt⟩

/-- Witness for C2: moving Bread (index 2) up in `sampleDB`. -/
theorem C2_move_item_witness :
    (WFitems sampleDB ∧ ((-1 : Int) = -1 ∨ (-1 : Int) = 1)
        ∧ (DB.items sampleDB 1).findIdx? (fun r => r.id == 3) = some 2)
      ∧ ((((2 : Nat) : Int) + (-1) < 0 ∨
            ((DB.items sampleDB 1).length : Int) ≤ ((2 : Nat) : Int) + (-1)) →
          DB.move_item sampleDB 1 3 (-1) 9 = sampleDB)
      ∧ (0 ≤ ((2 : Nat) : Int) + (-1) →
          ((2 : Nat) : Int) + (-1) < ((DB.items sampleDB 1).length : Int) →
          DB.items (DB.move_item sampleDB 1 3 (-1) 9) 1
            = reindex (DB.swapList (DB.items sampleDB 1) 2
                (((2 : Nat) : Int) + (-1)).toNat)) :=
  ⟨⟨by decide, Or.inl rfl, by decide⟩,
   C2_move_item sampleDB 1 3 (-1) 9 2 (by decide) (Or.inl rfl) (by decide)⟩

/-- C3 counterexample: deleting Eggs (id 2) from `sampleDB` passes
through the durable state after `delete_item`'s own `commit()` (source
line 163) in which the row is gone but the remaining rows still carry
sort positions `[1, 3]` — not renumbered.  So delete and renumbering are
not one atomic unit. -/
theorem C3_counterexample :
    DB.delete_item_commit1 sampleDB 2 ∈ DB.delete_item_commits sampleDB 1 2 9
      ∧ DB.delete_item_commit1 sampleDB 2 ≠ sampleDB
      ∧ DB.delete_item_commit1 sampleDB 2 ≠ DB.delete_item sampleDB 1 2 9
      ∧ (∀ r ∈ (DB.delete_item_commit1 sampleDB 2).items, r.id ≠ 2)
      ∧ (DB.items (DB.delete_item_commit1 sampleDB 2) 1).map (·.sort_order)
          = [1, 3] := by
  refine ⟨by decide, by decide, by decide, by decide, by decide⟩

/-- C3 amended: a completed `delete_item(listId, id)` deletes the row,
renumbers the remaining fetched rows of `listId` densely 1..N preserving
their prior relative order, and bumps the list's `updated_at`; however
the delete and the renumbering are two separate transactions (two
`commit()` calls), so the intermediate committed state has the row
deleted without renumbering. -/
theorem C3_delete_item_amended (s : DBState) (lid iid : Nat) (now : Nat)
    (hWF : WFitems s) :
    DB.items (DB.delete_item s lid iid now) lid
      = reindex ((DB.items s lid).filter (fun r => !(r.id == iid)))
    ∧ DB.get_list (DB.delete_item s lid iid now) lid
      = (DB.get_list s lid).map (fun l => { l with updated_at := now })
    ∧ (∀ r ∈ (DB.delete_item_commit1 s iid).items, r.id ≠ iid)
    ∧ DB.delete_item_commits s lid iid now
      = [s, DB.delete_item_commit1 s iid, DB.delete_item s lid iid now] := by
  refine ⟨items_delete_item s lid iid now hWF,
    get_list_delete_item s lid iid now, ?_, rfl⟩
  intro r hr
  have := (List.mem_filter.mp hr).2
  simpa using this

/-- Witness for C3's amended theorem: deleting Eggs from `sampleDB`. -/
theorem C3_delete_item_amended_witness :
    WFitems sampleDB
      ∧ (DB.items (DB.delete_item sampleDB 1 2 9) 1
          = reindex ((DB.items sampleDB 1).filter (fun r => !(r.id == 2)))
        ∧ DB.get_list (DB.delete_item sampleDB 1 2 9) 1
          = (DB.get_list sampleDB 1).map (fun l => { l with updated_at := 9 })
        ∧ (∀ r ∈ (DB.delete_item_commit1 sampleDB 2).items, r.id ≠ 2)
        ∧ DB.delete_item_commits sampleDB 1 2 9
          = [sampleDB, DB.delete_item_commit1 sampleDB 2,
             DB.delete_item sampleDB 1 2 9]) :=
  ⟨by decide, C3_delete_item_amended sampleDB 1 2 9 (by decide)⟩

/-- C4 counterexample: `create_list` with an empty title succeeds and
stores a row (no ValidationError exists in the storage layer), and
`add_item` with empty text likewise stores the empty text verbatim. -/
theorem C4_counterexample :
    ((DB.create_list ⟨[], []⟩ "" 5).1).lists = [⟨1, "", 5, 5⟩]
      ∧ ((DB.add_item ⟨[⟨1, "T", 0, 0⟩], []⟩ 1 "" 7).1).items
          = [⟨1, 1, "", 0, 1⟩] := by
  exact ⟨by decide, by decide⟩

/-- C4 amended: the storage layer performs no validation at all —
`create_list` and `add_item` store the given title/text verbatim, empty
or not, and return the fresh rowid; the only blank guard is at the
Prompt layer (`InputScreen.on_input_submitted`), which turns a
whitespace-only submission into a cancellation so that no action runs. -/
theorem C4_no_validation (s : DBState) (title text : String) (lid now : Nat) :
    ((DB.create_list s title now).1).lists.map (·.title)
      = s.lists.map (·.title) ++ [title]
    ∧ ((DB.add_item s lid text now).1).items.map (·.text)
      = s.items.map (·.text) ++ [text]
    ∧ input_submitted "   " = none
    ∧ input_submitted "" = none := by
  refine ⟨?_, ?_, by decide, by decide⟩
  · simp [DB.create_list]
  · simp [DB.add_item]

/-- C5 counterexample: `rename_list` on an id that is not in storage
(id 5 here) completes normally and returns the state unchanged — a
silent no-op.  The source raises nothing (the SQL `UPDATE` simply
matches zero rows), so no NotFound error is signalled. -/
theorem C5_counterexample :
    DB.get_list ⟨[⟨1, "A", 0, 0⟩], []⟩ 5 = none
      ∧ DB.rename_list ⟨[⟨1, "A", 0, 0⟩], []⟩ 5 "B" 9
          = ⟨[⟨1, "A", 0, 0⟩], []⟩ := by
  exact ⟨by decide, by decide⟩

/-- C5 amended: for an id not present, `rename_list` is a silent no-op
that leaves the state unchanged and signals nothing; for a present id it
updates the title and bumps the list's `updated_at`. -/
theorem C5_rename_list_amended (s : DBState) (lid : Nat) (title : String)
    (now : Nat) :
    (DB.get_list s lid = none → DB.rename_list s lid title now = s)
    ∧ (∀ l0, DB.get_list s lid = some l0 →
        DB.get_list (DB.rename_list s lid title now) lid
          = some { l0 with title := title, updated_at := now }) := by
  constructor
  · exact rename_list_absent s lid title now
  · intro l0 h
    rw [get_list_rename_list, h]
    rfl

/-- Witness for C5's amended theorem: both the absent case (id 5) and
the present case (id 1). -/
theorem C5_rename_list_amended_witness :
    (DB.get_list ⟨[⟨1, "A", 0, 0⟩], []⟩ 5 = none
      ∧ DB.rename_list ⟨[⟨1, "A", 0, 0⟩], []⟩ 5 "B" 9
          = ⟨[⟨1, "A", 0, 0⟩], []⟩)
    ∧ (DB.get_list ⟨[⟨1, "A", 0, 0⟩], []⟩ 1 = some ⟨1, "A", 0, 0⟩
      ∧ DB.get_list (DB.rename_list ⟨[⟨1, "A", 0, 0⟩], []⟩ 1 "B" 9) 1
          = some ⟨1, "B", 0, 9⟩) :=
  ⟨⟨by decide,
    (C5_rename_list_amended ⟨[⟨1, "A", 0, 0⟩], []⟩ 5 "B" 9).1 (by decide)⟩,
   ⟨by decide,
    (C5_rename_list_amended ⟨[⟨1, "A", 0, 0⟩], []⟩ 1 "B" 9).2
      ⟨1, "A", 0, 0⟩ (by decide)⟩⟩

/-- C6 counterexample: `toggle_item` and `update_item_text` mutate an
item of list 1 but leave the `lists` table — hence the list's
`updated_at` — completely untouched. -/
theorem C6_counterexample :
    (DB.toggle_item sampleDB 1).lists = sampleDB.lists
      ∧ (DB.toggle_item sampleDB 1).items ≠ sampleDB.items
      ∧ (DB.update_item_text sampleDB 1 "Oat milk").lists = sampleDB.lists
      ∧ (DB.update_item_text sampleDB 1 "Oat milk").items
          ≠ sampleDB.items := by
  exact ⟨by decide, by decide, by decide, by decide⟩

/-- C6 amended: `add_item`, `rename_list`, `delete_item`, and an
in-bounds `move_item` set the list's `updated_at` to the mutation time,
but `toggle_item` and `update_item_text` do not touch the `lists` table
at all. -/
theorem C6_updated_at_amended (s : DBState) (lid iid index : Nat) (d : Int)
    (text title : String) (now : Nat)
    (hfind : (DB.items s lid).findIdx? (fun r => r.id == iid) = some index)
    (hin : 0 ≤ (index : Int) + d)
    (hlt : (index : Int) + d < ((DB.items s lid).length : Int)) :
    DB.get_list (DB.add_item s lid text now).1 lid
      = (DB.get_list s lid).map (fun l => { l with updated_at := now })
    ∧ DB.get_list (DB.rename_list s lid title now) lid
      = (DB.get_list s lid).map
          (fun l => { l with title := title, updated_at := now })
    ∧ DB.get_list (DB.delete_item s lid iid now) lid
      = (DB.get_list s lid).map (fun l => { l with updated_at := now })
    ∧ DB.get_list (DB.move_item s lid iid d now) lid
      = (DB.get_list s lid).map (fun l => { l with updated_at := now })
    ∧ (DB.toggle_item s iid).lists = s.lists
    ∧ (DB.update_item_text s iid text).lists = s.lists := by
  refine ⟨get_list_add_item s lid text now,
    get_list_rename_list s lid title now,
    get_list_delete_item s lid iid now, ?_, rfl, rfl⟩
  rw [move_item_swap_eq s lid iid d now index hfind hin hlt]
  exact get_list_rewrite_order s lid _ now

/-- Witness for C6's amended theorem: moving Bread up in `sampleDB`. -/
theorem C6_updated_at_amended_witness :
    ((DB.items sampleDB 1).findIdx? (fun r => r.id == 3) = some 2
      ∧ 0 ≤ ((2 : Nat) : Int) + (-1)
      ∧ ((2 : Nat) : Int) + (-1) < ((DB.items sampleDB 1).length : Int))
    ∧ (DB.get_list (DB.add_item sampleDB 1 "Jam" 9).1 1
        = (DB.get_list sampleDB 1).map (fun l => { l with updated_at := 9 })
      ∧ DB.get_list (DB.rename_list sampleDB 1 "Food" 9) 1
        = (DB.get_list sampleDB 1).map
            (fun l => { l with title := "Food", updated_at := 9 })
      ∧ DB.get_list (DB.delete_item sampleDB 1 3 9) 1
        = (DB.get_list sampleDB 1).map (fun l => { l with updated_at := 9 })
      ∧ DB.get_list (DB.move_item sampleDB 1 3 (-1) 9) 1
        = (DB.get_list sampleDB 1).map (fun l => { l with updated_at := 9 })
      ∧ (DB.toggle_item sampleDB 3).lists = sampleDB.lists
      ∧ (DB.update_item_text sampleDB 3 "Jam").lists = sampleDB.lists) :=
  ⟨⟨by decide, by decide, by decide⟩,
   C6_updated_at_amended sampleDB 1 3 2 (-1) "Jam" "Food" 9
     (by decide) (by decide) (by decide)⟩

/-- C7: `delete_list` removes every item owned by the list together with
the list row in one transaction: no committed state has the list row
gone while items referencing it remain (given referential integrity of
the starting state), and fetching the deleted list afterwards returns
the empty sequence — never stale rows. -/
theorem C7_delete_list (s : DBState) (lid : Nat)
    (hFK : ∀ r ∈ s.items, ∃ l ∈ s.lists, l.id = r.list_id) :
    (∀ t ∈ DB.delete_list_commits s lid,
        (∃ l ∈ t.lists, l.id = lid)
          ∨ t.items.filter (fun r => r.list_id == lid) = [])
    ∧ DB.items (DB.delete_list s lid) lid = []
    ∧ DB.get_list (DB.delete_list s lid) lid = none := by
  have hfinal : (DB.delete_list s lid).items.filter
      (fun r => r.list_id == lid) = [] := by
    apply List.filter_eq_nil_iff.mpr
    intro r hr
    have h2 := (List.mem_filter.mp hr).2
    simpa using h2
  refine ⟨?_, ?_, ?_⟩
  · intro t ht
    have ht' : t = s ∨ t = DB.delete_list s lid := by
      simpa [DB.delete_list_commits] using ht
    rcases ht' with rfl | rfl
    · by_cases hnil : t.items.filter (fun r => r.list_id == lid) = []
      · exact Or.inr hnil
      · left
        obtain ⟨r, hr⟩ := List.exists_mem_of_ne_nil _ hnil
        rcases List.mem_filter.mp hr with ⟨hrs, hrl⟩
        obtain ⟨l, hl, hid⟩ := hFK r hrs
        have : r.list_id = lid := by simpa using hrl
        exact ⟨l, hl, this ▸ hid⟩
    · exact Or.inr hfinal
  · unfold DB.items
    rw [hfinal]
    rfl
  · apply List.find?_eq_none.mpr
    intro l hl
    have h2 := (List.mem_filter.mp hl).2
    simpa using h2

/-- Witness for C7 at `sampleDB`. -/
theorem C7_delete_list_witness :
    (∀ r ∈ sampleDB.items, ∃ l ∈ sampleDB.lists, l.id = r.list_id)
    ∧ ((∀ t ∈ DB.delete_list_commits sampleDB 1,
          (∃ l ∈ t.lists, l.id = 1)
            ∨ t.items.filter (fun r => r.list_id == 1) = [])
      ∧ DB.items (DB.delete_list sampleDB 1) 1 = []
      ∧ DB.get_list (DB.delete_list sampleDB 1) 1 = none) :=
  ⟨by decide, C7_delete_list sampleDB 1 (by decide)⟩

/-- C8: `add_item` appends a new unchecked row at the end of the fetched
order, with sort position `MAX(sort_order)` of the list plus one — `1`
when the list is empty — strictly above every existing position. -/
theorem C8_add_item (s : DBState) (lid : Nat) (text : String) (now : Nat)
    (hWF : WFitems s) :
    ∃ new : ItemRow,
      DB.items (DB.add_item s lid text now).1 lid = DB.items s lid ++ [new]
      ∧ new.sort_order
          = (s.items.filter (fun r => r.list_id == lid)).foldr
              (fun r m => max r.sort_order m) 0 + 1
      ∧ (∀ r ∈ DB.items s lid, r.sort_order < new.sort_order)
      ∧ (DB.items s lid = [] → new.sort_order = 1)
      ∧ new.text = text ∧ new.list_id = lid ∧ new.checked = 0 := by
  refine ⟨⟨freshId (s.items.map (·.id)), lid, text, 0,
    (s.items.filter (fun r => r.list_id == lid)).foldr
      (fun r m => max r.sort_order m) 0 + 1⟩,
    items_add_item s lid text now hWF, rfl, ?_, ?_, rfl, rfl, rfl⟩
  · intro r hr
    have hmem : r ∈ s.items.filter (fun r => r.list_id == lid) :=
      (List.perm_insertionSort itemLE _).mem_iff.mp hr
    have hle : r.sort_order ≤ (s.items.filter
        (fun r => r.list_id == lid)).foldr (fun r m => max r.sort_order m) 0 := by
      rw [foldr_max_sort_eq]
      exact le_foldr_max (List.mem_map_of_mem _ hmem)
    show r.sort_order < (s.items.filter (fun r => r.list_id == lid)).foldr
      (fun r m => max r.sort_order m) 0 + 1
    omega
  · intro hnil
    have h : (DB.items s lid).Perm
        (s.items.filter (fun r => r.list_id == lid)) :=
      List.perm_insertionSort itemLE _
    rw [hnil] at h
    have hz : s.items.filter (fun r => r.list_id == lid) = [] :=
      h.symm.eq_nil
    show (s.items.filter (fun r => r.list_id == lid)).foldr
      (fun r m => max r.sort_order m) 0 + 1 = 1
    rw [hz]
    rfl

/-- Witness for C8: adding to `sampleDB` (and the claim's empty-list
case is exercised through the same theorem in `C8`'s general form). -/
theorem C8_add_item_witness :
    WFitems sampleDB
    ∧ ∃ new : ItemRow,
        DB.items (DB.add_item sampleDB 1 "Jam" 9).1 1
          = DB.items sampleDB 1 ++ [new]
        ∧ new.sort_order
            = (sampleDB.items.filter (fun r => r.list_id == 1)).foldr
                (fun r m => max r.sort_order m) 0 + 1
        ∧ (∀ r ∈ DB.items sampleDB 1, r.sort_order < new.sort_order)
        ∧ (DB.items sampleDB 1 = [] → new.sort_order = 1)
        ∧ new.text = "Jam" ∧ new.list_id = 1 ∧ new.checked = 0 :=
  ⟨by decide, C8_add_item sampleDB 1 "Jam" 9 (by decide)⟩

/-- C9: toggling an item twice restores the state exactly; a single
toggle flips the item's checked flag while leaving its text, owning
list, and sort position unchanged. -/
theorem C9_toggle_item (s : DBState) (iid : Nat)
    (hb : ∀ r ∈ s.items, r.checked = 0 ∨ r.checked = 1) :
    DB.toggle_item (DB.toggle_item s iid) iid = s
    ∧ ∀ r ∈ s.items, r.id = iid →
        ∃ r' ∈ (DB.toggle_item s iid).items,
          r'.id = r.id ∧ r'.checked ≠ r.checked ∧ r'.text = r.text
            ∧ r'.list_id = r.list_id ∧ r'.sort_order = r.sort_order := by
  constructor
  · cases s with
    | mk ls its =>
      simp only [DB.toggle_item, List.map_map]
      congr 1
      have hpt : ∀ r ∈ its,
          ((fun r : ItemRow =>
              if r.id = iid then
                { r with checked := if r.checked = 0 then 1 else 0 }
              else r) ∘
            (fun r : ItemRow =>
              if r.id = iid then
                { r with checked := if r.checked = 0 then 1 else 0 }
              else r)) r = id r := by
        intro r hr
        obtain ⟨rid, rlid, rtext, rchecked, rsort⟩ := r
        simp only [Function.comp_apply, id]
        by_cases hid : rid = iid
        · rcases hb _ hr with h | h <;> simp_all
        · simp [hid]
      rw [List.map_congr_left hpt, List.map_id]
  · intro r hr hid
    refine ⟨{ r with checked := if r.checked = 0 then 1 else 0 }, ?_, rfl,
      ?_, rfl, rfl, rfl⟩
    · show _ ∈ s.items.map _
      have := List.mem_map_of_mem (fun r : ItemRow =>
        if r.id = iid then
          { r with checked := if r.checked = 0 then 1 else 0 }
        else r) hr
      simpa [hid] using this
    · rcases hb r hr with h | h <;> simp [h]

/-- Witness for C9: toggling Eggs (id 2) in `sampleDB`. -/
theorem C9_toggle_item_witness :
    (∀ r ∈ sampleDB.items, r.checked = 0 ∨ r.checked = 1)
    ∧ (DB.toggle_item (DB.toggle_item sampleDB 2) 2 = sampleDB
      ∧ ∀ r ∈ sampleDB.items, r.id = 2 →
          ∃ r' ∈ (DB.toggle_item sampleDB 2).items,
            r'.id = r.id ∧ r'.checked ≠ r.checked ∧ r'.text = r.text
              ∧ r'.list_id = r.list_id ∧ r'.sort_order = r.sort_order) :=
  ⟨by decide, C9_toggle_item sampleDB 2 (by decide)⟩

/-- C10: `delete_item(listId, id)` deletes by item id alone, without
checking ownership: the row vanishes from whatever list held it, every
other row of other lists survives with only `listId`'s rows renumbered,
and — even when the id is absent entirely — `listId` is still renumbered
densely and its `updated_at` still bumped. -/
theorem C10_delete_item_unchecked (s : DBState) (lid iid : Nat) (now : Nat)
    (hWF : WFitems s) :
    (∀ r ∈ (DB.delete_item s lid iid now).items, r.id ≠ iid)
    ∧ DB.items (DB.delete_item s lid iid now) lid
        = reindex ((DB.items s lid).filter (fun r => !(r.id == iid)))
    ∧ (∀ lid', lid' ≠ lid →
        DB.items (DB.delete_item s lid iid now) lid'
          = (DB.items s lid').filter (fun r => !(r.id == iid)))
    ∧ (iid ∉ s.items.map (·.id) →
        DB.items (DB.delete_item s lid iid now) lid
          = reindex (DB.items s lid))
    ∧ DB.get_list (DB.delete_item s lid iid now) lid
      = (DB.get_list s lid).map (fun l => { l with updated_at := now }) := by
  refine ⟨?_, items_delete_item s lid iid now hWF, ?_, ?_,
    get_list_delete_item s lid iid now⟩
  · intro r hr
    have h1 : r.id ∈ (DB.delete_item s lid iid now).items.map (·.id) :=
      List.mem_map_of_mem _ hr
    have h2 : (DB.delete_item s lid iid now).items.map (·.id)
        = (DB.delete_item_commit1 s iid).items.map (·.id) :=
      rewrite_order_map_id (DB.delete_item_commit1 s iid) lid
        (DB.items (DB.delete_item_commit1 s iid) lid) now
    rw [h2] at h1
    rcases List.mem_map.mp h1 with ⟨a, ha, haid⟩
    have h3 := (List.mem_filter.mp ha).2
    have h4 : a.id ≠ iid := by simpa using h3
    exact haid ▸ h4
  · intro lid' hne
    have hp : (DB.items (DB.delete_item_commit1 s iid) lid).Perm
        ((DB.delete_item_commit1 s iid).items.filter
          (fun r => r.list_id == lid)) :=
      List.perm_insertionSort itemLE _
    have hstep := items_rewrite_order_other (DB.delete_item_commit1 s iid)
      lid (DB.items (DB.delete_item_commit1 s iid) lid) now
      (WFitems_delete_item_commit1 s iid hWF) hp lid' hne
    calc DB.items (DB.delete_item s lid iid now) lid'
        = DB.items (DB.delete_item_commit1 s iid) lid' := hstep
      _ = (DB.items s lid').filter (fun r => !(r.id == iid)) :=
          items_delete_item_commit1 s lid' iid hWF
  · intro habs
    rw [items_delete_item s lid iid now hWF]
    congr 1
    apply List.filter_eq_self.mpr
    intro r hr
    have hmem : r ∈ s.items.filter (fun r => r.list_id == lid) :=
      (List.perm_insertionSort itemLE _).mem_iff.mp hr
    have hrs : r ∈ s.items := (List.mem_filter.mp hmem).1
    have hne : r.id ≠ iid :=
      fun hc => habs (hc ▸ List.mem_map_of_mem _ hrs)
    simpa using hne

/-- Witness for C10: deleting an id that belongs to a different list
(item 20 of list 2) through `delete_item(1, 20, ...)` in a two-list
database. -/
theorem C10_delete_item_unchecked_witness :
    WFitems ⟨[⟨1, "A", 0, 0⟩, ⟨2, "B", 0, 0⟩],
      [⟨10, 1, "x", 0, 1⟩, ⟨20, 2, "y", 0, 1⟩, ⟨21, 2, "z", 0, 2⟩]⟩
    ∧ ((∀ r ∈ (DB.delete_item ⟨[⟨1, "A", 0, 0⟩, ⟨2, "B", 0, 0⟩],
          [⟨10, 1, "x", 0, 1⟩, ⟨20, 2, "y", 0, 1⟩, ⟨21, 2, "z", 0, 2⟩]⟩
          1 20 9).items, r.id ≠ 20)
      ∧ DB.items (DB.delete_item ⟨[⟨1, "A", 0, 0⟩, ⟨2, "B", 0, 0⟩],
          [⟨10, 1, "x", 0, 1⟩, ⟨20, 2, "y", 0, 1⟩, ⟨21, 2, "z", 0, 2⟩]⟩
          1 20 9) 1
        = reindex ((DB.items ⟨[⟨1, "A", 0, 0⟩, ⟨2, "B", 0, 0⟩],
            [⟨10, 1, "x", 0, 1⟩, ⟨20, 2, "y", 0, 1⟩, ⟨21, 2, "z", 0, 2⟩]⟩
            1).filter (fun r => !(r.id == 20)))
      ∧ (∀ lid', lid' ≠ 1 →
          DB.items (DB.delete_item ⟨[⟨1, "A", 0, 0⟩, ⟨2, "B", 0, 0⟩],
            [⟨10, 1, "x", 0, 1⟩, ⟨20, 2, "y", 0, 1⟩, ⟨21, 2, "z", 0, 2⟩]⟩
            1 20 9) lid'
          = (DB.items ⟨[⟨1, "A", 0, 0⟩, ⟨2, "B", 0, 0⟩],
              [⟨10, 1, "x", 0, 1⟩, ⟨20, 2, "y", 0, 1⟩, ⟨21, 2, "z", 0, 2⟩]⟩
              lid').filter (fun r => !(r.id == 20)))
      ∧ (20 ∉ (⟨[⟨1, "A", 0, 0⟩, ⟨2, "B", 0, 0⟩],
            [⟨10, 1, "x", 0, 1⟩, ⟨20, 2, "y", 0, 1⟩, ⟨21, 2, "z", 0, 2⟩]⟩
            : DBState).items.map (·.id) →
          DB.items (DB.delete_item ⟨[⟨1, "A", 0, 0⟩, ⟨2, "B", 0, 0⟩],
            [⟨10, 1, "x", 0, 1⟩, ⟨20, 2, "y", 0, 1⟩, ⟨21, 2, "z", 0, 2⟩]⟩
            1 20 9) 1
          = reindex (DB.items ⟨[⟨1, "A", 0, 0⟩, ⟨2, "B", 0, 0⟩],
              [⟨10, 1, "x", 0, 1⟩, ⟨20, 2, "y", 0, 1⟩, ⟨21, 2, "z", 0, 2⟩]⟩ 1))
      ∧ DB.get_list (DB.delete_item ⟨[⟨1, "A", 0, 0⟩, ⟨2, "B", 0, 0⟩],
          [⟨10, 1, "x", 0, 1⟩, ⟨20, 2, "y", 0, 1⟩, ⟨21, 2, "z", 0, 2⟩]⟩
          1 20 9) 1
        = (DB.get_list ⟨[⟨1, "A", 0, 0⟩, ⟨2, "B", 0, 0⟩],
            [⟨10, 1, "x", 0, 1⟩, ⟨20, 2, "y", 0, 1⟩, ⟨21, 2, "z", 0, 2⟩]⟩
            1).map (fun l => { l with updated_at := 9 })) :=
  ⟨by decide, C10_delete_item_unchecked
    ⟨[⟨1, "A", 0, 0⟩, ⟨2, "B", 0, 0⟩],
     [⟨10, 1, "x", 0, 1⟩, ⟨20, 2, "y", 0, 1⟩, ⟨21, 2, "z", 0, 2⟩]⟩
    1 20 9 (by decide)⟩
